import Mathlib

/-!
Verification development for the SmartArt repository (shens2/smartart).

The embedding below translates the layout geometry, node-store mutation
operations and interaction-state handlers of `src/components/CycleSmartArt.tsx`
and `src/components/ListSmartArt.tsx` into Lean definitions.  Angles are
rational numbers (the JavaScript source computes them with ordinary
arithmetic); the final trigonometric placement is modelled over the reals,
so "distance within floating-point tolerance" statements become exact.
-/

namespace SmartArt

/-! ## Radial (cycle) layout geometry, from CycleSmartArt.tsx -/

/-- Container center x coordinate (`const centerX = 400`). -/
def centerX : ℚ := 400

/-- Container center y coordinate (`const centerY = 400`). -/
def centerY : ℚ := 400

/-- Angle in degrees of node `index` out of `total`
(`const angleInDegrees = 90 - (index * (360 / total))` in
`calculateNodePosition`). -/
def angleInDegrees (index total : ℕ) : ℚ :=
  90 - (index : ℚ) * (360 / (total : ℚ))

/-- Degrees to radians (`(angleInDegrees * Math.PI) / 180`). -/
noncomputable def degToRad (d : ℚ) : ℝ :=
  ((d : ℝ) * Real.pi) / 180

/-- Point placement of `calculateNodePosition`: `x = centerX + radius*cos`,
`y = centerY - radius*sin` (y negated because screen y grows downward). -/
noncomputable def calculateNodePosition (index total : ℕ) (radius : ℝ) : ℝ × ℝ :=
  let angleInRadians := degToRad (angleInDegrees index total)
  (((centerX : ℚ) : ℝ) + radius * Real.cos angleInRadians,
   ((centerY : ℚ) : ℝ) - radius * Real.sin angleInRadians)

/-- The ternary `angle < 0 ? angle + 360 : angle` used on both adjacent
angles in the wrap-around branch of `calculateAddButtonPosition`. -/
def adjustNeg (a : ℚ) : ℚ :=
  if a < 0 then a + 360 else a

/-- The correction `if (midAngle >= 360) midAngle -= 360` applied after both
midpoint computations in `calculateAddButtonPosition`. -/
def wrapAdjust (m : ℚ) : ℚ :=
  if 360 ≤ m then m - 360 else m

/-- The midpoint angle computed by `calculateAddButtonPosition` (lines
175-196 of CycleSmartArt.tsx): average the two adjacent node angles, with a
wrap-around branch when the raw angular difference exceeds 180, and a final
hardcoded override for `indexBefore === total - 1`. -/
def calculateAddButtonAngle (indexBefore total : ℕ) : ℚ :=
  let angleBefore : ℚ := 90 - (indexBefore : ℚ) * (360 / (total : ℚ))
  let angleAfter : ℚ := 90 - ((((indexBefore + 1) % total : ℕ)) : ℚ) * (360 / (total : ℚ))
  let midAngle : ℚ :=
    if 180 < |angleBefore - angleAfter| then
      wrapAdjust ((adjustNeg angleBefore + adjustNeg angleAfter + 360) / 2)
    else
      (angleBefore + angleAfter) / 2
  if indexBefore = total - 1 then
    wrapAdjust ((angleBefore + 360 + angleAfter) / 2)
  else
    midAngle

/-- `calculateAddButtonPosition` of CycleSmartArt.tsx: for `total <= 1` it
returns `{ x: 0, y: 0 }`; otherwise it places the add button on the circle
at the midpoint angle. -/
noncomputable def calculateAddButtonPosition (indexBefore total : ℕ) (radius : ℝ) : ℝ × ℝ :=
  if total ≤ 1 then ((0 : ℝ), (0 : ℝ))
  else
    let midAngleRad := degToRad (calculateAddButtonAngle indexBefore total)
    (((centerX : ℚ) : ℝ) + radius * Real.cos midAngleRad,
     ((centerY : ℚ) : ℝ) - radius * Real.sin midAngleRad)

/-- Normalisation of an angle into `[0, 360)` (the unique representative
modulo 360), used to state angular-betweenness properties. -/
def normAngle (a : ℚ) : ℚ :=
  a - 360 * (⌊a / 360⌋ : ℤ)

/-! ## Horizontal (list) layout geometry, from ListSmartArt.tsx -/

/-- Width of each node card (`const nodeWidth = 200`). -/
def nodeWidth : ℚ := 200

/-- Gap between node cards (`const nodeGap = 24`). -/
def nodeGap : ℚ := 24

/-- Container padding (`const containerPadding = 20`). -/
def containerPadding : ℚ := 20

/-- Left coordinate of the between-column add button for internal boundary
`idx` (ListSmartArt.tsx lines 1278-1287): the code computes
`containerPadding + (position * nodeWidth) + ((position - 1) * nodeGap) +
(nodeGap / 2) + 6` with `position = idx + 1`. -/
def betweenAddButtonLeft (idx : ℕ) : ℚ :=
  let position : ℚ := (idx : ℚ) + 1
  containerPadding + position * nodeWidth + (position - 1) * nodeGap + nodeGap / 2 + 6

/-! ## Node records -/

/-- Node record of the list layout (`interface Node` in ListSmartArt.tsx). -/
structure Node where
  id : ℤ
  title : String
  body : String
  image : String
deriving DecidableEq, Repr

/-- Default node used by `List.getD`-phrased statements. -/
def defaultNode : Node :=
  ⟨0, "", "", ""⟩

/-- Node record of the cycle layout (`interface CycleNode` in
CycleSmartArt.tsx). -/
structure CycleNode where
  id : ℤ
  title : String
  description : String
deriving DecidableEq, Repr

/-! ## JavaScript array and Math primitives used by the handlers -/

/-- `arr.splice(p, 0, x)` on a copy: insert `x` at position `p`, clamping
`p` to the array length (take/drop clamp exactly as splice does for
nonnegative positions). -/
def spliceInsert {α : Type} (l : List α) (p : ℕ) (x : α) : List α :=
  l.take p ++ x :: l.drop p

/-- `Math.max(...xs)` for a nonempty argument list.  The empty case is
unreachable in the embedded code (JavaScript would give `-Infinity`; every
call site guards with a nonempty check or supplies an extra argument). -/
def jsMax : List ℤ → ℤ
  | [] => 0
  | x :: xs => xs.foldl max x

/-- `[arr[j], arr[j+1]] = [arr[j+1], arr[j]]` on a copy: swap the adjacent
entries at positions `j` and `j + 1` (a no-op when `j + 1` is out of
range, which the callers' index checks rule out). -/
def swapPair {α : Type} (l : List α) (j : ℕ) : List α :=
  if h : j + 1 < l.length then
    (l.set j (l.get ⟨j + 1, h⟩)).set (j + 1) (l.get ⟨j, Nat.lt_of_succ_lt h⟩)
  else l

/-! ## List diagram state and event handlers, from ListSmartArt.tsx -/

/-- The `useState` cells of `ListSmartArt` that the claims speak about
(the DOM-rect cache `buttonRect` and the input refs are presentation
plumbing and not part of the interaction-state model). -/
structure ListState where
  nodes : List Node
  hoveredNode : Option ℤ
  pressedNode : Option ℤ
  editingTitle : Option ℤ
  editingBody : Option ℤ
  containerActive : Bool
  containerHovered : Bool
  insertPictureMenuOpen : Option ℤ
  generatingImageForNode : Option ℤ
deriving DecidableEq, Repr

/-- The ids of a node sequence, in order. -/
def listIds (l : List Node) : List ℤ :=
  l.map Node.id

/-- The fresh id computed by `handleAddClick`:
`nodes.length > 0 ? Math.max(...nodes.map(n => n.id)) + 1 : 1`. -/
def newListId (l : List Node) : ℤ :=
  if 0 < l.length then jsMax (listIds l) + 1 else 1

/-- Default image of a node created by `handleAddClick`. -/
def addedNodeImage : String :=
  "https://images.unsplash.com/photo-1441974231531-c6227db76b6e?ixlib=rb-4.0.3&ixid=M3wxMjA3fDB8MHxwaG90by1wYWdlfHx8fGVufDB8fHx8fA%3D%3D&auto=format&fit=crop&w=300&q=80"

/-- `handleAddClick(position)` (ListSmartArt.tsx lines 630-660): splice a
new node with a fresh id at `position`, make it pressed and title-editing,
clear body-editing and container-active. -/
def handleAddClick (position : ℕ) (s : ListState) : ListState :=
  let newId := newListId s.nodes
  let newNode : Node := ⟨newId, "Heading 4", "Description", addedNodeImage⟩
  { s with
    nodes := spliceInsert s.nodes position newNode
    pressedNode := some newId
    editingTitle := some newId
    editingBody := none
    containerActive := false }

/-- `handleDeleteNode(nodeId)` (ListSmartArt.tsx lines 940-957): refuse to
delete the last remaining node (early return, no state change at all);
otherwise filter the node out and clear the pressed/editing states. -/
def handleDeleteNode (nodeId : ℤ) (s : ListState) : ListState :=
  if s.nodes.length ≤ 1 then s
  else
    { s with
      nodes := s.nodes.filter (fun node => node.id != nodeId)
      pressedNode := none
      editingTitle := none
      editingBody := none }

/-- `handleClickOutside` (ListSmartArt.tsx lines 582-617) on a pointer-down
whose target is described by the three flags: when a menu is open, a click
that hits neither the insert button nor the menu closes the menu and
nothing else; with no menu open, a click outside the container resets the
pressed/editing/active/hover states. -/
def handleClickOutside (onInsertButton onMenu insideContainer : Bool)
    (s : ListState) : ListState :=
  if s.insertPictureMenuOpen.isSome then
    if !onInsertButton && !onMenu then
      { s with insertPictureMenuOpen := none }
    else s
  else
    if !insideContainer then
      { s with
        pressedNode := none
        editingTitle := none
        editingBody := none
        containerActive := false
        hoveredNode := none }
    else s

/-- The fallback image URL of the failed "Generate with AI" path (also the
render-time `onError` fallback) in ListSmartArt.tsx. -/
def fallbackImageURL : String :=
  "https://images.unsplash.com/photo-1579546929518-9e396f3cc809?w=800&h=600&q=80"

/-- Resolution of the asynchronous "Generate with AI" acquisition inside
`handlePictureSourceSelect` (ListSmartArt.tsx lines 814-856): on success
the matching node's image becomes the generated URL; on failure an alert
is raised and the matching node's image becomes the fallback URL; in both
cases the `finally` clause clears the generating flag.  Returned alongside
the state is the list of user-visible alert messages raised. -/
def applyGenerateResolution (targetNodeId : ℤ) (result : Except String String)
    (s : ListState) : ListState × List String :=
  match result with
  | Except.ok generatedImageUrl =>
    ({ s with
       nodes := s.nodes.map (fun node =>
         if node.id = targetNodeId then { node with image := generatedImageUrl } else node)
       generatingImageForNode := none }, [])
  | Except.error errorMessage =>
    ({ s with
       nodes := s.nodes.map (fun node =>
         if node.id = targetNodeId then { node with image := fallbackImageURL } else node)
       generatingImageForNode := none },
     ["Failed to generate image: " ++ errorMessage ++ ". Please try again."])

/-! ## Cycle diagram insert, from CycleSmartArt.tsx -/

/-- The fresh id computed by `handleAddNode`:
`Math.max(...nodes.map(node => node.id), 0) + 1`. -/
def newCycleId (l : List CycleNode) : ℤ :=
  (l.map CycleNode.id).foldl max 0 + 1

/-- `handleAddNode(indexToInsertAfter)` (CycleSmartArt.tsx lines 211-233):
splice a new node with the fresh id at `indexToInsertAfter + 1`. -/
def handleAddNode (indexToInsertAfter : ℕ) (nodes : List CycleNode) : List CycleNode :=
  let newNode : CycleNode := ⟨newCycleId nodes, "New Step", "Add details here"⟩
  spliceInsert nodes (indexToInsertAfter + 1) newNode

/-! ## Operation sequences over one list diagram, with the full JS store

`handleMoveRight` with an id that is absent from the sequence is not a
no-op in the source: `findIndex` returns `-1`, the guard
`currentIndex < nodes.length - 1` (line 924) passes for any nonempty
array, and the destructuring swap
`[newNodes[-1], newNodes[0]] = [newNodes[0], newNodes[-1]]` evaluates its
right side first and then writes `undefined` into cell 0 (the write to
property `-1` does not touch any array element); the pressed/editing
state updates still fire.  To give the operation-sequence claims their
real state space, the store is a list of JavaScript array cells, where a
cell is a node record or `undefined` (`Option Node`, `none` being
`undefined`).  On a store containing an `undefined` cell, any handler
callback that reads `node.id` from it throws a `TypeError`; in every
handler below the throwing expression runs before any state is
committed, so a throw leaves the state unchanged. -/

/-- The `useState` cells of `ListSmartArt` with the node store widened to
JavaScript array cells (`none` is an `undefined` entry written by the
out-of-range destructuring swap of `handleMoveRight`). -/
structure JSListState where
  nodes : List (Option Node)
  hoveredNode : Option ℤ
  pressedNode : Option ℤ
  editingTitle : Option ℤ
  editingBody : Option ℤ
  containerActive : Bool
  containerHovered : Bool
  insertPictureMenuOpen : Option ℤ
  generatingImageForNode : Option ℤ
deriving DecidableEq, Repr

/-- The ids of the node records present in the store, in order
(`undefined` cells carry no id). -/
def definedIds (l : List (Option Node)) : List ℤ :=
  l.filterMap (fun cell => Option.map Node.id cell)

/-- Whether the store contains an `undefined` cell (on which
`nodes.map(n => n.id)` and friends throw). -/
def hasUndef (l : List (Option Node)) : Bool :=
  l.any Option.isNone

/-- The fresh id computed by `handleAddClick` on a store with no
`undefined` cell, where `nodes.map(n => n.id)` is exactly `definedIds`:
`nodes.length > 0 ? Math.max(...nodes.map(n => n.id)) + 1 : 1`. -/
def newJSId (l : List (Option Node)) : ℤ :=
  if 0 < l.length then jsMax (definedIds l) + 1 else 1

/-- Outcome of `nodes.findIndex(node => node.id === nodeId)` on a store of
JS cells: the index of the first matching record, `-1` when the scan
completes without a match, or a thrown `TypeError` when the scan reaches
an `undefined` cell first. -/
inductive FindRes : Type
  | found (i : ℕ)
  | notFound
  | thrown
deriving DecidableEq, Repr

/-- Left-to-right evaluation of `findIndex(node => node.id === nodeId)`. -/
def jsFindIndexId (nodeId : ℤ) : List (Option Node) → FindRes
  | [] => FindRes.notFound
  | none :: _ => FindRes.thrown
  | some node :: rest =>
    if node.id = nodeId then FindRes.found 0
    else
      match jsFindIndexId nodeId rest with
      | FindRes.found i => FindRes.found (i + 1)
      | FindRes.notFound => FindRes.notFound
      | FindRes.thrown => FindRes.thrown

/-- `handleAddClick(position)` on the JS store: computing the fresh id
throws on any `undefined` cell (before any state commit); otherwise the
splice and state updates of lines 630-660 run as usual. -/
def jsHandleAddClick (position : ℕ) (s : JSListState) : JSListState :=
  if hasUndef s.nodes then s
  else
    let newId := newJSId s.nodes
    let newNode : Node := ⟨newId, "Heading 4", "Description", addedNodeImage⟩
    { s with
      nodes := spliceInsert s.nodes position (some newNode)
      pressedNode := some newId
      editingTitle := some newId
      editingBody := none
      containerActive := false }

/-- `handleDeleteNode(nodeId)` on the JS store: the length guard returns
first; then the filter callback throws on any `undefined` cell (before
any state commit); otherwise lines 940-957 run as usual. -/
def jsHandleDeleteNode (nodeId : ℤ) (s : JSListState) : JSListState :=
  if s.nodes.length ≤ 1 then s
  else if hasUndef s.nodes then s
  else
    { s with
      nodes := s.nodes.filter (fun cell =>
        match cell with
        | some node => node.id != nodeId
        | none => true)
      pressedNode := none
      editingTitle := none
      editingBody := none }

/-- `handleMoveLeft(nodeId)` (ListSmartArt.tsx lines 898-917): a throwing
`findIndex` commits nothing; `findIndex = -1` fails the guard
`currentIndex > 0`; a found index swaps with the previous cell and
refreshes the pressed state. -/
def handleMoveLeft (nodeId : ℤ) (s : JSListState) : JSListState :=
  match jsFindIndexId nodeId s.nodes with
  | FindRes.thrown => s
  | FindRes.notFound => s
  | FindRes.found currentIndex =>
    if 0 < currentIndex then
      { s with
        nodes := swapPair s.nodes (currentIndex - 1)
        pressedNode := some nodeId
        containerActive := false
        editingTitle := none
        editingBody := none }
    else s

/-- `handleMoveRight(nodeId)` (ListSmartArt.tsx lines 919-938): a throwing
`findIndex` commits nothing; a found index below `length - 1` swaps with
the next cell; `findIndex = -1` passes the guard
`-1 < nodes.length - 1` on any nonempty store, and the destructuring swap
then writes `undefined` into cell 0 while the pressed/editing updates
still fire. -/
def handleMoveRight (nodeId : ℤ) (s : JSListState) : JSListState :=
  match jsFindIndexId nodeId s.nodes with
  | FindRes.thrown => s
  | FindRes.found currentIndex =>
    if currentIndex < s.nodes.length - 1 then
      { s with
        nodes := swapPair s.nodes currentIndex
        pressedNode := some nodeId
        containerActive := false
        editingTitle := none
        editingBody := none }
    else s
  | FindRes.notFound =>
    if 0 < s.nodes.length then
      { s with
        nodes := s.nodes.set 0 none
        pressedNode := some nodeId
        containerActive := false
        editingTitle := none
        editingBody := none }
    else s

/-- `handleTitleChange(nodeId, newTitle)` on the JS store: the map inside
the state updater throws on any `undefined` cell, so nothing commits;
otherwise the in-place title replacement runs. -/
def jsHandleTitleChange (nodeId : ℤ) (newTitle : String) (s : JSListState) : JSListState :=
  if hasUndef s.nodes then s
  else
    { s with
      nodes := s.nodes.map (fun cell =>
        match cell with
        | some node => some (if node.id = nodeId then { node with title := newTitle } else node)
        | none => none) }

/-- `handleBodyChange(nodeId, newBody)` on the JS store, as for titles. -/
def jsHandleBodyChange (nodeId : ℤ) (newBody : String) (s : JSListState) : JSListState :=
  if hasUndef s.nodes then s
  else
    { s with
      nodes := s.nodes.map (fun cell =>
        match cell with
        | some node => some (if node.id = nodeId then { node with body := newBody } else node)
        | none => none) }

/-- The node-sequence effect of `handleFileSelection` (and of a
successful image acquisition) on the JS store, as for titles. -/
def jsHandleImageChange (nodeId : ℤ) (imageUrl : String) (s : JSListState) : JSListState :=
  if hasUndef s.nodes then s
  else
    { s with
      nodes := s.nodes.map (fun cell =>
        match cell with
        | some node => some (if node.id = nodeId then { node with image := imageUrl } else node)
        | none => none) }

/-- The mutation operations of the list diagram, as typed commands. -/
inductive ListOp : Type
  | add (position : ℕ)
  | delete (nodeId : ℤ)
  | moveLeft (nodeId : ℤ)
  | moveRight (nodeId : ℤ)
  | setTitle (nodeId : ℤ) (newTitle : String)
  | setBody (nodeId : ℤ) (newBody : String)
  | setImage (nodeId : ℤ) (imageUrl : String)
deriving DecidableEq, Repr

/-- Dispatch one operation to its handler on the JS store. -/
def applyListOp (op : ListOp) (s : JSListState) : JSListState :=
  match op with
  | ListOp.add position => jsHandleAddClick position s
  | ListOp.delete nodeId => jsHandleDeleteNode nodeId s
  | ListOp.moveLeft nodeId => handleMoveLeft nodeId s
  | ListOp.moveRight nodeId => handleMoveRight nodeId s
  | ListOp.setTitle nodeId t => jsHandleTitleChange nodeId t s
  | ListOp.setBody nodeId b => jsHandleBodyChange nodeId b s
  | ListOp.setImage nodeId u => jsHandleImageChange nodeId u s

/-- Apply a sequence of operations in order. -/
def applyListOps (ops : List ListOp) (s : JSListState) : JSListState :=
  ops.foldl (fun s op => applyListOp op s) s

/-- Apply a sequence of cycle insertions in order. -/
def applyCycleAdds (positions : List ℕ) (l : List CycleNode) : List CycleNode :=
  positions.foldl (fun l p => handleAddNode p l) l

/-- A concrete node for witness statements. -/
def wNode (i : ℤ) : Node :=
  ⟨i, "t", "b", "img"⟩

/-- A quiescent list state over the given nodes, for witness statements. -/
def wState (l : List Node) : ListState :=
  ⟨l, none, none, none, none, false, false, none, none⟩

/-- A list state with the image-source menu open on node `m`. -/
def wStateMenu (l : List Node) (m : ℤ) : ListState :=
  ⟨l, none, none, none, none, false, false, some m, none⟩

/-- A quiescent JS-store state over the given cells, for witnesses. -/
def jsState (cells : List (Option Node)) : JSListState :=
  ⟨cells, none, none, none, none, false, false, none, none⟩

/-! # Theorems -/

/-- A point placed at `(400 + r cos θ, 400 - r sin θ)` is at distance `r`
from `(400, 400)`. -/
theorem sqrt_circle_dist (θ r : ℝ) (hr : 0 ≤ r) :
    Real.sqrt ((400 + r * Real.cos θ - 400) ^ 2 + (400 - r * Real.sin θ - 400) ^ 2) = r := by
  have h : (400 + r * Real.cos θ - 400) ^ 2 + (400 - r * Real.sin θ - 400) ^ 2 = r ^ 2 := by
    have hpy := Real.sin_sq_add_cos_sq θ
    calc (400 + r * Real.cos θ - 400) ^ 2 + (400 - r * Real.sin θ - 400) ^ 2
        = r ^ 2 * (Real.sin θ ^ 2 + Real.cos θ ^ 2) := by ring
      _ = r ^ 2 := by rw [hpy, mul_one]
  rw [h, Real.sqrt_sq hr]

/-- Claim C4: for every `total ≥ 1` and `index ∈ [0, total)`, the cycle
node-placement function returns a point at distance `radius` from the
center `(400, 400)`, with the angle `90 - index * (360 / total)` degrees
and the y component negated for screen coordinates. -/
theorem cycle_node_on_circle (index total : ℕ) (radius : ℝ)
    (htotal : 1 ≤ total) (hindex : index < total) (hradius : 0 ≤ radius) :
    Real.sqrt (((calculateNodePosition index total radius).1 - 400) ^ 2 +
        ((calculateNodePosition index total radius).2 - 400) ^ 2) = radius ∧
    angleInDegrees index total = 90 - (index : ℚ) * (360 / (total : ℚ)) ∧
    (calculateNodePosition index total radius).2 =
      400 - radius * Real.sin (degToRad (angleInDegrees index total)) := by
  refine ⟨?_, rfl, ?_⟩
  · have hc : ((centerX : ℚ) : ℝ) = 400 := by norm_num [centerX]
    have hc2 : ((centerY : ℚ) : ℝ) = 400 := by norm_num [centerY]
    simp only [calculateNodePosition, hc, hc2]
    exact sqrt_circle_dist _ _ hradius
  · have hc2 : ((centerY : ℚ) : ℝ) = 400 := by norm_num [centerY]
    simp only [calculateNodePosition, hc2]

/-- Witness for C4 at `index = 1`, `total = 4`, `radius = 250`. -/
theorem cycle_node_on_circle_witness :
    Real.sqrt (((calculateNodePosition 1 4 250).1 - 400) ^ 2 +
        ((calculateNodePosition 1 4 250).2 - 400) ^ 2) = 250 :=
  (cycle_node_on_circle 1 4 250 (by norm_num) (by norm_num) (by norm_num)).1

/-- Counterexample to claim C2: at `total = 1` the insertion-midpoint
function returns the origin `(0, 0)`, not the center `(400, 400)`. -/
theorem cycle_midpoint_degenerate_cx :
    calculateAddButtonPosition 0 1 250 ≠ (((400 : ℚ) : ℝ), ((400 : ℚ) : ℝ)) := by
  simp only [calculateAddButtonPosition, if_pos (by norm_num : (1 : ℕ) ≤ 1)]
  intro h
  have h1 := congrArg Prod.fst h
  norm_num at h1

/-- Claim C2 as amended: for `total ≤ 1` the cycle insertion-midpoint
function returns the origin `(0, 0)` (not the center point `(400, 400)`
used for node placement). -/
theorem cycle_midpoint_degenerate (indexBefore total : ℕ) (radius : ℝ)
    (htotal : total ≤ 1) :
    calculateAddButtonPosition indexBefore total radius = ((0 : ℝ), (0 : ℝ)) := by
  simp only [calculateAddButtonPosition, if_pos htotal]

/-- Witness for the amended C2 at `total = 1`. -/
theorem cycle_midpoint_degenerate_witness :
    calculateAddButtonPosition 0 1 250 = ((0 : ℝ), (0 : ℝ)) :=
  cycle_midpoint_degenerate 0 1 250 (by norm_num)

/-- Counterexample to claim C3: the first internal boundary button sits at
238, while the claimed formula `P + (i+1)*W + i*G + G/2` gives 232. -/
theorem list_between_button_cx :
    betweenAddButtonLeft 0 = 238 ∧
    containerPadding + ((0 : ℚ) + 1) * nodeWidth + (0 : ℚ) * nodeGap + nodeGap / 2 = 232 ∧
    (238 : ℚ) ≠ 232 := by
  refine ⟨?_, ?_, by norm_num⟩
  · norm_num [betweenAddButtonLeft, containerPadding, nodeWidth, nodeGap]
  · norm_num [containerPadding, nodeWidth, nodeGap]

/-- Claim C3 as amended: with `W = 200`, `G = 24`, `P = 20`, the insertion
affordance between slot `i` and slot `i + 1` is positioned at
`P + (i+1)*W + i*G + G/2 + 6` (the implementation adds a fixed 6px
fine-tuning offset to the claimed formula). -/
theorem list_between_button_position (nodeCount idx : ℕ)
    (hcount : 2 ≤ nodeCount) (hidx : idx ≤ nodeCount - 2) :
    betweenAddButtonLeft idx =
      containerPadding + ((idx : ℚ) + 1) * nodeWidth + (idx : ℚ) * nodeGap + nodeGap / 2 + 6 := by
  simp only [betweenAddButtonLeft]
  ring

/-- Witness for the amended C3 at `nodeCount = 2`, `idx = 0`. -/
theorem list_between_button_position_witness :
    betweenAddButtonLeft 0 =
      containerPadding + ((0 : ℚ) + 1) * nodeWidth + (0 : ℚ) * nodeGap + nodeGap / 2 + 6 :=
  list_between_button_position 2 0 (by norm_num) (by norm_num)

/-- For `total ≥ 2`, the hardcoded wrap-around override of
`calculateAddButtonPosition` yields the midpoint angle `90 + 180 / total`
for `indexBefore = total - 1`. -/
theorem addButtonAngle_wrap (total : ℕ) (h : 2 ≤ total) :
    calculateAddButtonAngle (total - 1) total = 90 + 180 / (total : ℚ) := by
  have ht0 : (0 : ℚ) < (total : ℚ) := by exact_mod_cast Nat.lt_of_lt_of_le Nat.zero_lt_two h
  have ht2 : (2 : ℚ) ≤ (total : ℚ) := by exact_mod_cast h
  have h0 : (total - 1 + 1) % total = 0 := by
    rw [Nat.sub_add_cancel (by omega)]
    exact Nat.mod_self total
  have hcast : ((total - 1 : ℕ) : ℚ) = (total : ℚ) - 1 := by
    rw [Nat.cast_sub (by omega)]
    norm_num
  simp only [calculateAddButtonAngle, h0, Nat.cast_zero, zero_mul, sub_zero,
    eq_self_iff_true, if_true]
  have hmid : (90 - ((total - 1 : ℕ) : ℚ) * (360 / (total : ℚ)) + 360 + 90) / 2 =
      90 + 180 / (total : ℚ) := by
    rw [hcast]
    field_simp
    ring
  rw [hmid, wrapAdjust]
  have hle : (180 : ℚ) / (total : ℚ) ≤ 90 := by
    rw [div_le_iff ht0]
    linarith
  rw [if_neg (by linarith)]

/-- For `total ≥ 2`, the normalised angle of node `total - 1` is
`90 + 360 / total`. -/
theorem angle_last_norm (total : ℕ) (h : 2 ≤ total) :
    normAngle (angleInDegrees (total - 1) total) = 90 + 360 / (total : ℚ) := by
  have ht0 : (0 : ℚ) < (total : ℚ) := by exact_mod_cast Nat.lt_of_lt_of_le Nat.zero_lt_two h
  have ht2 : (2 : ℚ) ≤ (total : ℚ) := by exact_mod_cast h
  have hcast : ((total - 1 : ℕ) : ℚ) = (total : ℚ) - 1 := by
    rw [Nat.cast_sub (by omega)]
    norm_num
  have hv : angleInDegrees (total - 1) total = -270 + 360 / (total : ℚ) := by
    simp only [angleInDegrees, hcast]
    field_simp
    ring
  have hle : (360 : ℚ) / (total : ℚ) ≤ 180 := by
    rw [div_le_iff ht0]
    linarith
  have hpos : (0 : ℚ) < 360 / (total : ℚ) := by positivity
  have hfl : ⌊(-270 + 360 / (total : ℚ)) / 360⌋ = -1 := by
    rw [Int.floor_eq_iff]
    constructor
    · push_cast
      rw [le_div_iff (by norm_num : (0 : ℚ) < 360)]
      linarith
    · push_cast
      rw [div_lt_iff (by norm_num : (0 : ℚ) < 360)]
      linarith
  rw [normAngle, hv, hfl]
  push_cast
  ring

/-- The normalised angle of node 0 is 90 degrees. -/
theorem angle_first_norm (total : ℕ) :
    normAngle (angleInDegrees 0 total) = 90 := by
  have hv : angleInDegrees 0 total = 90 := by
    simp [angleInDegrees]
  rw [hv, normAngle]
  have hfl : ⌊(90 : ℚ) / 360⌋ = 0 := by
    rw [Int.floor_eq_iff]
    constructor <;> norm_num
  rw [hfl]
  norm_num

/-- Claim C1: for every `total ≥ 2` and `indexBefore ∈ [0, total)`, the
cycle insertion-midpoint function returns a point at distance `radius`
from the center `(400, 400)`; and for `indexBefore = total - 1` (the
wrap-around pair) the returned angle lies strictly between the normalised
angles of node 0 and node `total - 1`, on the shorter arc between them
(the arc width `360 / total` is at most 180 degrees). -/
theorem cycle_midpoint_on_circle_wrap (indexBefore total : ℕ) (radius : ℝ)
    (htotal : 2 ≤ total) (hindex : indexBefore < total) (hradius : 0 ≤ radius) :
    Real.sqrt (((calculateAddButtonPosition indexBefore total radius).1 - 400) ^ 2 +
        ((calculateAddButtonPosition indexBefore total radius).2 - 400) ^ 2) = radius ∧
    (indexBefore = total - 1 →
      normAngle (angleInDegrees 0 total) < calculateAddButtonAngle indexBefore total ∧
      calculateAddButtonAngle indexBefore total < normAngle (angleInDegrees (total - 1) total) ∧
      normAngle (angleInDegrees (total - 1) total) - normAngle (angleInDegrees 0 total) ≤ 180) := by
  have ht0 : (0 : ℚ) < (total : ℚ) := by
    exact_mod_cast Nat.lt_of_lt_of_le Nat.zero_lt_two htotal
  have ht2 : (2 : ℚ) ≤ (total : ℚ) := by exact_mod_cast htotal
  constructor
  · have hc : ((centerX : ℚ) : ℝ) = 400 := by norm_num [centerX]
    have hc2 : ((centerY : ℚ) : ℝ) = 400 := by norm_num [centerY]
    simp only [calculateAddButtonPosition, if_neg (by omega : ¬ total ≤ 1), hc, hc2]
    exact sqrt_circle_dist _ _ hradius
  · intro heq
    subst heq
    rw [addButtonAngle_wrap total htotal, angle_last_norm total htotal, angle_first_norm total]
    have h180 : (0 : ℚ) < 180 / (total : ℚ) := by positivity
    have hsum : (360 : ℚ) / (total : ℚ) = 180 / (total : ℚ) + 180 / (total : ℚ) := by
      ring
    have hle : (360 : ℚ) / (total : ℚ) ≤ 180 := by
      rw [div_le_iff ht0]
      linarith
    refine ⟨by linarith, by linarith, by linarith⟩

/-- Witness for C1 at `total = 3`, `indexBefore = 2`, `radius = 250`. -/
theorem cycle_midpoint_on_circle_wrap_witness :
    Real.sqrt (((calculateAddButtonPosition 2 3 250).1 - 400) ^ 2 +
        ((calculateAddButtonPosition 2 3 250).2 - 400) ^ 2) = 250 ∧
    normAngle (angleInDegrees 0 3) < calculateAddButtonAngle 2 3 :=
  ⟨(cycle_midpoint_on_circle_wrap 2 3 250 (by norm_num) (by norm_num) (by norm_num)).1,
   ((cycle_midpoint_on_circle_wrap 2 3 250 (by norm_num) (by norm_num) (by norm_num)).2 rfl).1⟩

/-! ## List manipulation lemmas -/

/-- A splice insertion is a permutation of consing the element. -/
theorem spliceInsert_perm {α : Type} (l : List α) (p : ℕ) (x : α) :
    List.Perm (spliceInsert l p x) (x :: l) := by
  unfold spliceInsert
  have h1 : List.Perm (l.take p ++ x :: l.drop p) (x :: (l.take p ++ l.drop p)) :=
    List.perm_middle
  rwa [List.take_append_drop] at h1

/-- A splice insertion grows the length by one. -/
theorem spliceInsert_length {α : Type} (l : List α) (p : ℕ) (x : α) :
    (spliceInsert l p x).length = l.length + 1 :=
  (spliceInsert_perm l p x).length_eq

/-- Splice with `(a :: t)` at a successor position peels the head. -/
theorem spliceInsert_cons_succ {α : Type} (a : α) (t : List α) (q : ℕ) (x : α) :
    spliceInsert (a :: t) (q + 1) x = a :: spliceInsert t q x := by
  simp [spliceInsert]

/-- The spliced element sits at the splice position. -/
theorem spliceInsert_get? {α : Type} (l : List α) (p : ℕ) (x : α) (h : p ≤ l.length) :
    (spliceInsert l p x).get? p = some x := by
  induction l generalizing p with
  | nil =>
    have hp : p = 0 := Nat.le_zero.mp h
    subst hp
    rfl
  | cons a t ih =>
    cases p with
    | zero => rfl
    | succ q =>
      rw [spliceInsert_cons_succ]
      simpa using ih q (by simpa using h)

/-- Erasing the spliced element restores the original sequence. -/
theorem spliceInsert_eraseIdx {α : Type} (l : List α) (p : ℕ) (x : α) (h : p ≤ l.length) :
    (spliceInsert l p x).eraseIdx p = l := by
  induction l generalizing p with
  | nil =>
    have hp : p = 0 := Nat.le_zero.mp h
    subst hp
    rfl
  | cons a t ih =>
    cases p with
    | zero => rfl
    | succ q =>
      rw [spliceInsert_cons_succ, List.eraseIdx_cons_succ, ih q (by simpa using h)]

/-- Every element of the fold range, and the seed, bound `foldl max`. -/
theorem le_foldl_max (xs : List ℤ) : ∀ (init x : ℤ), x = init ∨ x ∈ xs →
    x ≤ xs.foldl max init := by
  induction xs with
  | nil =>
    intro init x h
    rcases h with h | h
    · simp [h]
    · simp at h
  | cons y ys ih =>
    intro init x h
    rw [List.foldl_cons]
    rcases h with h | h
    · subst h
      exact le_trans (le_max_left x y) (ih (max x y) (max x y) (Or.inl rfl))
    · rcases List.mem_cons.mp h with h | h
      · subst h
        exact le_trans (le_max_right init x) (ih (max init x) (max init x) (Or.inl rfl))
      · exact ih (max init y) x (Or.inr h)

/-- `foldl max` returns its seed or a member of the list. -/
theorem foldl_max_self_or_mem (xs : List ℤ) : ∀ (init : ℤ),
    xs.foldl max init = init ∨ xs.foldl max init ∈ xs := by
  induction xs with
  | nil =>
    intro init
    left
    rfl
  | cons y ys ih =>
    intro init
    rw [List.foldl_cons]
    rcases ih (max init y) with h | h
    · rcases max_choice init y with h2 | h2
      · left
        rw [h, h2]
      · right
        rw [h, h2]
        exact List.mem_cons_self y ys
    · right
      exact List.mem_cons_of_mem y h

/-- `jsMax` bounds every member of a list. -/
theorem le_jsMax (xs : List ℤ) (x : ℤ) (hx : x ∈ xs) : x ≤ jsMax xs := by
  cases xs with
  | nil => simp at hx
  | cons y ys =>
    rcases List.mem_cons.mp hx with h | h
    · exact le_foldl_max ys y x (Or.inl h)
    · exact le_foldl_max ys y x (Or.inr h)

/-- `jsMax` of a nonempty list is a member of the list. -/
theorem jsMax_mem (xs : List ℤ) (h : xs ≠ []) : jsMax xs ∈ xs := by
  cases xs with
  | nil => exact absurd rfl h
  | cons y ys =>
    show ys.foldl max y ∈ y :: ys
    rcases foldl_max_self_or_mem ys y with h2 | h2
    · rw [h2]
      exact List.mem_cons_self y ys
    · exact List.mem_cons_of_mem y h2

/-- Every existing id is strictly below the fresh list id. -/
theorem mem_lt_newListId (l : List Node) (x : ℤ) (hx : x ∈ listIds l) :
    x < newListId l := by
  unfold newListId
  cases l with
  | nil => simp [listIds] at hx
  | cons n t =>
    rw [if_pos (by simp)]
    have hle : x ≤ jsMax (listIds (n :: t)) := le_jsMax _ x hx
    omega

/-- Every existing id is strictly below the fresh cycle id. -/
theorem mem_lt_newCycleId (l : List CycleNode) (x : ℤ) (hx : x ∈ l.map CycleNode.id) :
    x < newCycleId l := by
  unfold newCycleId
  have hle : x ≤ (l.map CycleNode.id).foldl max 0 := le_foldl_max _ 0 x (Or.inr hx)
  omega

/-- Setting position `j` to the old entry at `j + 1` and position `j + 1`
to the old entry at `j` permutes the list (it swaps two entries). -/
theorem setset_adjacent_perm {α : Type} :
    ∀ (l : List α) (j : ℕ) (h : j + 1 < l.length),
    List.Perm ((l.set j (l.get ⟨j + 1, h⟩)).set (j + 1) (l.get ⟨j, Nat.lt_of_succ_lt h⟩)) l := by
  intro l
  induction l with
  | nil =>
    intro j h
    simp at h
  | cons a t ih =>
    intro j h
    cases j with
    | zero =>
      cases t with
      | nil => simp at h
      | cons b t2 =>
        show List.Perm (b :: a :: t2) (a :: b :: t2)
        exact List.Perm.swap a b t2
    | succ k =>
      have hk : k + 1 < t.length := by simpa using h
      show List.Perm (a :: (t.set k _).set (k + 1) _) (a :: t)
      exact List.Perm.cons a (ih k hk)

/-- Swapping an adjacent pair permutes the list. -/
theorem swapPair_perm {α : Type} (l : List α) (j : ℕ) : List.Perm (swapPair l j) l := by
  unfold swapPair
  split
  case isTrue h => exact setset_adjacent_perm l j h
  case isFalse => exact List.Perm.refl l

/-- Splicing in an element whose id exceeds every existing id preserves
distinctness of the mapped id list. -/
theorem nodup_splice_gt {α : Type} (idf : α → ℤ) (l : List α) (p : ℕ) (x : α)
    (hgt : ∀ y ∈ l.map idf, y < idf x) (h : (l.map idf).Nodup) :
    ((spliceInsert l p x).map idf).Nodup := by
  have hperm : List.Perm ((spliceInsert l p x).map idf) ((x :: l).map idf) :=
    (spliceInsert_perm l p x).map idf
  apply hperm.symm.nodup
  rw [List.map_cons, List.nodup_cons]
  refine ⟨fun hmem => ?_, h⟩
  exact absurd (hgt (idf x) hmem) (lt_irrefl (idf x))

/-- The defined ids of a splice of a node record are a permutation of
consing that record's id. -/
theorem definedIds_splice_perm (l : List (Option Node)) (p : ℕ) (nd : Node) :
    List.Perm (definedIds (spliceInsert l p (some nd))) (nd.id :: definedIds l) := by
  have h := (spliceInsert_perm l p (some nd)).filterMap
    (fun cell => Option.map Node.id cell)
  simpa [definedIds, List.filterMap_cons] using h

/-- Splicing in a record whose id exceeds every defined id preserves
distinctness of the defined ids. -/
theorem nodup_definedIds_splice (l : List (Option Node)) (p : ℕ) (nd : Node)
    (hgt : ∀ y ∈ definedIds l, y < nd.id) (h : (definedIds l).Nodup) :
    (definedIds (spliceInsert l p (some nd))).Nodup := by
  apply (definedIds_splice_perm l p nd).symm.nodup
  rw [List.nodup_cons]
  exact ⟨fun hmem => absurd (hgt _ hmem) (lt_irrefl _), h⟩

/-- Every defined id is strictly below the fresh id of the JS store. -/
theorem mem_lt_newJSId (l : List (Option Node)) (x : ℤ) (hx : x ∈ definedIds l) :
    x < newJSId l := by
  unfold newJSId
  have hne : l ≠ [] := by
    intro h0
    rw [h0] at hx
    simp [definedIds] at hx
  rw [if_pos (List.length_pos.mpr hne)]
  have hle := le_jsMax (definedIds l) x hx
  omega

/-- Writing `undefined` into cell 0 only drops ids: the defined ids of
the corrupted store form a sublist of the previous ones. -/
theorem definedIds_set_zero_sublist (l : List (Option Node)) :
    List.Sublist (definedIds (l.set 0 none)) (definedIds l) := by
  cases l with
  | nil => exact List.Sublist.refl _
  | cons c t =>
    rw [List.set_cons_zero]
    cases c with
    | none => exact List.Sublist.refl _
    | some n =>
      have h1 : definedIds (none :: t) = definedIds t := by
        simp [definedIds]
      have h2 : definedIds (some n :: t) = n.id :: definedIds t := by
        simp [definedIds]
      rw [h1, h2]
      exact List.Sublist.cons _ (List.Sublist.refl _)

/-- Mapping a cell-wise id-preserving function over the store keeps the
defined ids. -/
theorem definedIds_map_preserve (l : List (Option Node)) (g : Option Node → Option Node)
    (hg : ∀ cell, Option.map Node.id (g cell) = Option.map Node.id cell) :
    definedIds (l.map g) = definedIds l := by
  induction l with
  | nil => rfl
  | cons c t ih =>
    simp only [definedIds, List.map_cons, List.filterMap_cons, hg c] at ih ⊢
    rcases hmc : Option.map Node.id c with _ | b <;> simp only [hmc] at ih ⊢
    · exact ih
    · rw [ih]

/-- `handleAddClick` on the JS store preserves distinctness of the
defined ids (a store holding an `undefined` cell is left unchanged). -/
theorem nodup_jsHandleAddClick (p : ℕ) (s : JSListState)
    (h : (definedIds s.nodes).Nodup) :
    (definedIds (jsHandleAddClick p s).nodes).Nodup := by
  unfold jsHandleAddClick
  split
  · exact h
  · show (definedIds (spliceInsert s.nodes p _)).Nodup
    exact nodup_definedIds_splice s.nodes p _
      (fun y hy => mem_lt_newJSId s.nodes y hy) h

/-- `handleDeleteNode` on the JS store preserves distinctness of the
defined ids. -/
theorem nodup_jsHandleDeleteNode (nodeId : ℤ) (s : JSListState)
    (h : (definedIds s.nodes).Nodup) :
    (definedIds (jsHandleDeleteNode nodeId s).nodes).Nodup := by
  unfold jsHandleDeleteNode
  split
  · exact h
  · split
    · exact h
    · exact ((List.filter_sublist s.nodes).filterMap
        (fun cell => Option.map Node.id cell)).nodup h

/-- `handleMoveLeft` preserves distinctness of the defined ids. -/
theorem nodup_handleMoveLeft (nodeId : ℤ) (s : JSListState)
    (h : (definedIds s.nodes).Nodup) :
    (definedIds (handleMoveLeft nodeId s).nodes).Nodup := by
  rcases hfind : jsFindIndexId nodeId s.nodes with i | _ | _
  · simp only [handleMoveLeft, hfind]
    split
    · exact (((swapPair_perm s.nodes (i - 1)).filterMap
        (fun cell => Option.map Node.id cell)).symm).nodup h
    · exact h
  · simpa [handleMoveLeft, hfind] using h
  · simpa [handleMoveLeft, hfind] using h

/-- `handleMoveRight` preserves distinctness of the defined ids — also on
the absent-id error path, which only replaces cell 0 by `undefined`. -/
theorem nodup_handleMoveRight (nodeId : ℤ) (s : JSListState)
    (h : (definedIds s.nodes).Nodup) :
    (definedIds (handleMoveRight nodeId s).nodes).Nodup := by
  rcases hfind : jsFindIndexId nodeId s.nodes with i | _ | _
  · simp only [handleMoveRight, hfind]
    split
    · exact (((swapPair_perm s.nodes i).filterMap
        (fun cell => Option.map Node.id cell)).symm).nodup h
    · exact h
  · simp only [handleMoveRight, hfind]
    split
    · exact (definedIds_set_zero_sublist s.nodes).nodup h
    · exact h
  · simpa [handleMoveRight, hfind] using h

/-- `handleTitleChange` on the JS store keeps the defined ids. -/
theorem nodup_jsHandleTitleChange (nodeId : ℤ) (t : String) (s : JSListState)
    (h : (definedIds s.nodes).Nodup) :
    (definedIds (jsHandleTitleChange nodeId t s).nodes).Nodup := by
  unfold jsHandleTitleChange
  split
  · exact h
  · show (definedIds (s.nodes.map _)).Nodup
    rw [definedIds_map_preserve]
    · exact h
    · intro cell
      cases cell with
      | none => rfl
      | some node => by_cases hn : node.id = nodeId <;> simp [hn]

/-- `handleBodyChange` on the JS store keeps the defined ids. -/
theorem nodup_jsHandleBodyChange (nodeId : ℤ) (b : String) (s : JSListState)
    (h : (definedIds s.nodes).Nodup) :
    (definedIds (jsHandleBodyChange nodeId b s).nodes).Nodup := by
  unfold jsHandleBodyChange
  split
  · exact h
  · show (definedIds (s.nodes.map _)).Nodup
    rw [definedIds_map_preserve]
    · exact h
    · intro cell
      cases cell with
      | none => rfl
      | some node => by_cases hn : node.id = nodeId <;> simp [hn]

/-- The image update on the JS store keeps the defined ids. -/
theorem nodup_jsHandleImageChange (nodeId : ℤ) (u : String) (s : JSListState)
    (h : (definedIds s.nodes).Nodup) :
    (definedIds (jsHandleImageChange nodeId u s).nodes).Nodup := by
  unfold jsHandleImageChange
  split
  · exact h
  · show (definedIds (s.nodes.map _)).Nodup
    rw [definedIds_map_preserve]
    · exact h
    · intro cell
      cases cell with
      | none => rfl
      | some node => by_cases hn : node.id = nodeId <;> simp [hn]

/-- Claim C7: starting from a node store with pairwise-distinct ids,
every sequence of mutation operations (insert, delete, move, field
update, image update on the list diagram; insert on the cycle diagram)
leaves the ids of the node records present pairwise distinct — in
particular each insert's fresh id never collides with an existing id.
The semantics includes the error path of `handleMoveRight` on an absent
id, which overwrites cell 0 of a nonempty store with `undefined` (only
removing an id), and the `TypeError` paths of every handler on a store
already holding an `undefined` cell, which commit no state. -/
theorem ids_nodup_invariant :
    (∀ (ops : List ListOp) (s : JSListState), (definedIds s.nodes).Nodup →
      (definedIds (applyListOps ops s).nodes).Nodup) ∧
    (∀ (positions : List ℕ) (l : List CycleNode), (l.map CycleNode.id).Nodup →
      ((applyCycleAdds positions l).map CycleNode.id).Nodup) := by
  constructor
  · intro ops
    induction ops with
    | nil => exact fun s h => h
    | cons op rest ih =>
      intro s h
      have hstep : (definedIds (applyListOp op s).nodes).Nodup := by
        cases op with
        | add p => exact nodup_jsHandleAddClick p s h
        | delete nodeId => exact nodup_jsHandleDeleteNode nodeId s h
        | moveLeft nodeId => exact nodup_handleMoveLeft nodeId s h
        | moveRight nodeId => exact nodup_handleMoveRight nodeId s h
        | setTitle nodeId t => exact nodup_jsHandleTitleChange nodeId t s h
        | setBody nodeId b => exact nodup_jsHandleBodyChange nodeId b s h
        | setImage nodeId u => exact nodup_jsHandleImageChange nodeId u s h
      exact ih (applyListOp op s) hstep
  · intro positions
    induction positions with
    | nil => exact fun l h => h
    | cons p rest ih =>
      intro l h
      have hstep : ((handleAddNode p l).map CycleNode.id).Nodup := by
        show ((spliceInsert l (p + 1) _).map CycleNode.id).Nodup
        exact nodup_splice_gt CycleNode.id l (p + 1) _
          (fun y hy => mem_lt_newCycleId l y hy) h
      exact ih (handleAddNode p l) hstep

/-- Witness for C7: the operation sequence exercises the corrupting
`handleMoveRight` on an absent id (cell 0 becomes `undefined`) and the
subsequent `TypeError` no-commit paths of add, delete, move and update. -/
theorem ids_nodup_invariant_witness :
    (definedIds (applyListOps
        [ListOp.moveRight 99, ListOp.add 0, ListOp.delete 1, ListOp.moveRight 2,
         ListOp.setTitle 2 "x"]
        (jsState [some (wNode 1), some (wNode 2)])).nodes).Nodup ∧
    ((applyCycleAdds [0, 1] [⟨1, "a", "b"⟩]).map CycleNode.id).Nodup :=
  ⟨ids_nodup_invariant.1 _ _ (by decide), ids_nodup_invariant.2 _ _ (by decide)⟩

/-- Counterexample to claim C5: inserting into the cycle sequence
`[{id: -1}]` produces a new node whose id is `1 = Math.max(-1, 0) + 1`,
not `max(existing ids) + 1 = 0`. -/
theorem insert_spec_cx :
    (handleAddNode 0 [⟨-1, "a", "b"⟩]).get? 1 = some ⟨1, "New Step", "Add details here"⟩ ∧
    (1 : ℤ) ≠ -1 + 1 := by
  constructor
  · rfl
  · decide

/-- Claim C5 as amended: inserting at position `p ≤ n` into a sequence of
length `n` yields a sequence of length `n + 1` with the new node at index
`p` and the original nodes restored by erasing it; the new id is strictly
greater than every prior id.  For the list insert the new id equals
`max(existing ids) + 1` (or 1 if the sequence is empty); for the cycle
insert it equals `max(existing ids ∪ {0}) + 1` — which coincides with
`max(existing ids) + 1` unless every existing id is negative. -/
theorem insert_spec :
    (∀ (s : ListState) (p : ℕ), p ≤ s.nodes.length →
      (handleAddClick p s).nodes.length = s.nodes.length + 1 ∧
      (handleAddClick p s).nodes.get? p =
        some ⟨newListId s.nodes, "Heading 4", "Description", addedNodeImage⟩ ∧
      (handleAddClick p s).nodes.eraseIdx p = s.nodes ∧
      (∀ x ∈ listIds s.nodes, x < newListId s.nodes) ∧
      (s.nodes = [] → newListId s.nodes = 1) ∧
      (s.nodes ≠ [] → (newListId s.nodes - 1) ∈ listIds s.nodes ∧
        ∀ x ∈ listIds s.nodes, x ≤ newListId s.nodes - 1)) ∧
    (∀ (l : List CycleNode) (indexToInsertAfter : ℕ), indexToInsertAfter + 1 ≤ l.length →
      (handleAddNode indexToInsertAfter l).length = l.length + 1 ∧
      (handleAddNode indexToInsertAfter l).get? (indexToInsertAfter + 1) =
        some ⟨newCycleId l, "New Step", "Add details here"⟩ ∧
      (handleAddNode indexToInsertAfter l).eraseIdx (indexToInsertAfter + 1) = l ∧
      newCycleId l = (l.map CycleNode.id).foldl max 0 + 1 ∧
      ∀ x ∈ l.map CycleNode.id, x < newCycleId l) := by
  constructor
  · intro s p hp
    refine ⟨spliceInsert_length s.nodes p _, spliceInsert_get? s.nodes p _ hp,
      spliceInsert_eraseIdx s.nodes p _ hp,
      fun x hx => mem_lt_newListId s.nodes x hx, ?_, ?_⟩
    · intro hnil
      rw [newListId, hnil]
      rfl
    · intro hne
      have hlen : 0 < s.nodes.length := List.length_pos.mpr hne
      have heq : newListId s.nodes - 1 = jsMax (listIds s.nodes) := by
        rw [newListId, if_pos hlen]
        ring
      constructor
      · rw [heq]
        exact jsMax_mem _ (by simpa [listIds] using hne)
      · intro x hx
        rw [heq]
        exact le_jsMax (listIds s.nodes) x hx
  · intro l indexToInsertAfter h
    exact ⟨spliceInsert_length l _ _, spliceInsert_get? l _ _ h,
      spliceInsert_eraseIdx l _ _ h, rfl,
      fun x hx => mem_lt_newCycleId l x hx⟩

/-- Witness for the amended C5 on concrete inserts. -/
theorem insert_spec_witness :
    (handleAddClick 1 (wState [wNode 1, wNode 2])).nodes.length =
      (wState [wNode 1, wNode 2]).nodes.length + 1 ∧
    (handleAddNode 0 [⟨1, "a", "b"⟩]).get? 1 =
      some ⟨newCycleId [⟨1, "a", "b"⟩], "New Step", "Add details here"⟩ :=
  ⟨(insert_spec.1 (wState [wNode 1, wNode 2]) 1 (by decide)).1,
   (insert_spec.2 [⟨1, "a", "b"⟩] 0 (by decide)).2.1⟩

/-- Claim C6: deleting when the sequence has at most one node is a
complete no-op (no state change of any kind); deleting an id that is not
present leaves the node sequence unchanged. -/
theorem delete_noop_safe (s : ListState) (nodeId : ℤ) :
    (s.nodes.length ≤ 1 → handleDeleteNode nodeId s = s) ∧
    (nodeId ∉ listIds s.nodes → (handleDeleteNode nodeId s).nodes = s.nodes) := by
  constructor
  · intro h
    rw [handleDeleteNode, if_pos h]
  · intro h
    by_cases hlen : s.nodes.length ≤ 1
    · rw [handleDeleteNode, if_pos hlen]
    · rw [handleDeleteNode, if_neg hlen]
      show s.nodes.filter _ = s.nodes
      apply List.filter_eq_self.mpr
      intro nd hnd
      simp only [bne_iff_ne, ne_eq]
      intro heq
      exact h (heq ▸ List.mem_map_of_mem Node.id hnd)

/-- Witness for C6: deleting from a singleton, and deleting an absent id. -/
theorem delete_noop_safe_witness :
    handleDeleteNode 1 (wState [wNode 1]) = wState [wNode 1] ∧
    (handleDeleteNode 99 (wState [wNode 1, wNode 2])).nodes =
      (wState [wNode 1, wNode 2]).nodes :=
  ⟨(delete_noop_safe (wState [wNode 1]) 1).1 (by decide),
   (delete_noop_safe (wState [wNode 1, wNode 2]) 99).2 (by decide)⟩

/-- Claim C8: a pointer-down outside the diagram's bounding region (not on
the container, the insert button or the floating menu) resets every
interaction-state component to its default when no image-source menu is
open; when a menu is open it clears only the menu-open state and leaves
every other component unchanged. -/
theorem click_outside_reset (s : ListState) (onInsertButton onMenu insideContainer : Bool)
    (hb : onInsertButton = false) (hm : onMenu = false) (hc : insideContainer = false) :
    (s.insertPictureMenuOpen = none →
      handleClickOutside onInsertButton onMenu insideContainer s =
        { s with
          pressedNode := none
          editingTitle := none
          editingBody := none
          containerActive := false
          hoveredNode := none }) ∧
    (s.insertPictureMenuOpen.isSome →
      handleClickOutside onInsertButton onMenu insideContainer s =
        { s with insertPictureMenuOpen := none }) := by
  subst hb hm hc
  constructor
  · intro h
    simp [handleClickOutside, h]
  · intro h
    simp [handleClickOutside, h]

/-- Witness for C8 in both menu states. -/
theorem click_outside_reset_witness :
    handleClickOutside false false false (wState [wNode 1]) =
      { (wState [wNode 1]) with
        pressedNode := none
        editingTitle := none
        editingBody := none
        containerActive := false
        hoveredNode := none } ∧
    handleClickOutside false false false (wStateMenu [wNode 1] 1) =
      { (wStateMenu [wNode 1] 1) with insertPictureMenuOpen := none } :=
  ⟨(click_outside_reset (wState [wNode 1]) false false false rfl rfl rfl).1 rfl,
   (click_outside_reset (wStateMenu [wNode 1] 1) false false false rfl rfl rfl).2 rfl⟩

/-- Claim C9: when the "Generate with AI" acquisition fails, the resolved
state keeps the sequence length, clears the generating flag, raises a
user-visible message, and for each node position preserves id, title and
body; the targeted node's image becomes the fallback URL and every other
node's image is unchanged. -/
theorem generate_failure_fallback (s : ListState) (target : ℤ) (msg : String) :
    (applyGenerateResolution target (Except.error msg) s).1.nodes.length =
      s.nodes.length ∧
    (applyGenerateResolution target (Except.error msg) s).1.generatingImageForNode =
      none ∧
    (applyGenerateResolution target (Except.error msg) s).2 ≠ [] ∧
    (∀ i, i < s.nodes.length →
      ((applyGenerateResolution target (Except.error msg) s).1.nodes.getD i defaultNode).id =
        (s.nodes.getD i defaultNode).id ∧
      ((applyGenerateResolution target (Except.error msg) s).1.nodes.getD i defaultNode).title =
        (s.nodes.getD i defaultNode).title ∧
      ((applyGenerateResolution target (Except.error msg) s).1.nodes.getD i defaultNode).body =
        (s.nodes.getD i defaultNode).body ∧
      ((s.nodes.getD i defaultNode).id = target →
        ((applyGenerateResolution target (Except.error msg) s).1.nodes.getD i defaultNode).image =
          fallbackImageURL) ∧
      ((s.nodes.getD i defaultNode).id ≠ target →
        ((applyGenerateResolution target (Except.error msg) s).1.nodes.getD i defaultNode).image =
          (s.nodes.getD i defaultNode).image)) := by
  refine ⟨by simp [applyGenerateResolution], rfl, by simp [applyGenerateResolution], ?_⟩
  intro i hi
  have hg : s.nodes.get? i = some (s.nodes.get ⟨i, hi⟩) := List.get?_eq_get hi
  have hmap : (applyGenerateResolution target (Except.error msg) s).1.nodes.get? i =
      some (if (s.nodes.get ⟨i, hi⟩).id = target then
        { s.nodes.get ⟨i, hi⟩ with image := fallbackImageURL }
      else s.nodes.get ⟨i, hi⟩) := by
    show (s.nodes.map _).get? i = _
    rw [List.get?_map, hg]
    rfl
  rw [List.getD_eq_get?, List.getD_eq_get?, hg, hmap]
  simp only [Option.getD_some]
  by_cases hid : (s.nodes.get ⟨i, hi⟩).id = target
  · rw [if_pos hid]
    exact ⟨rfl, rfl, rfl, fun _ => rfl, fun hne => absurd hid hne⟩
  · rw [if_neg hid]
    exact ⟨rfl, rfl, rfl, fun habs => absurd habs hid, fun _ => rfl⟩

/-- Witness for C9 on a single-node state whose node is the target. -/
theorem generate_failure_fallback_witness :
    ((applyGenerateResolution 1 (Except.error "boom") (wState [wNode 1])).1.nodes.getD 0
      defaultNode).image = fallbackImageURL :=
  ((generate_failure_fallback (wState [wNode 1]) 1 "boom").2.2.2 0 (by decide)).2.2.2.1
    (by decide)

/-- Claim C10: if the node targeted by a pending image acquisition is no
longer present when the acquisition resolves, applying the resolution
(success or failure) leaves the node sequence unchanged. -/
theorem stale_resolution_discarded (s : ListState) (target : ℤ)
    (result : Except String String) (h : ∀ nd ∈ s.nodes, nd.id ≠ target) :
    (applyGenerateResolution target result s).1.nodes = s.nodes := by
  cases result with
  | ok url =>
    show s.nodes.map _ = s.nodes
    have hcong : ∀ nd ∈ s.nodes,
        (if nd.id = target then { nd with image := url } else nd) = id nd := by
      intro nd hnd
      rw [if_neg (h nd hnd)]
      rfl
    rw [List.map_congr_left hcong, List.map_id]
  | error msg =>
    show s.nodes.map _ = s.nodes
    have hcong : ∀ nd ∈ s.nodes,
        (if nd.id = target then { nd with image := fallbackImageURL } else nd) = id nd := by
      intro nd hnd
      rw [if_neg (h nd hnd)]
      rfl
    rw [List.map_congr_left hcong, List.map_id]

/-- Witness for C10: resolving for a deleted id leaves the nodes alone. -/
theorem stale_resolution_discarded_witness :
    (applyGenerateResolution 1 (Except.error "x") (wState [wNode 2])).1.nodes =
      (wState [wNode 2]).nodes :=
  stale_resolution_discarded (wState [wNode 2]) 1 (Except.error "x") (by decide)

end SmartArt
